import Mathlib

/-!
Shallow embedding of `platipy/imaging/label/fusion.py` and proofs about it.

Modelling conventions:
* A SimpleITK image is modelled as its flat voxel array, `Image := List ℚ`;
  floating-point voxel values are idealised as exact rationals, and the
  float32/float64 casts of the source are therefore the identity map.
* Python dicts are modelled as association lists (`List (String × _)`) in
  insertion order; a failed subscript is a `PyError.keyError`.
* Fallible Python code is modelled in the `Except PyError` monad; raising an
  exception is `Except.error`, so an erroring call returns no partial result.
* External library routines that are genuine black boxes for this module
  (the Gaussian and box filters, resampling, STAPLE, connected components,
  float square root, ...) are passed in as explicit function parameters, so
  every theorem quantifies over them; everything written in `fusion.py`
  itself is embedded concretely.
-/

namespace Platipy

/-- Python exception kinds raised (or raisable) by the code under study. -/
inductive PyError
  | keyError
  | valueError
  | typeError
  | nameError
  | unboundLocal
  deriving DecidableEq

/-- A SimpleITK image, modelled as its flat list of voxel values. -/
abbrev Image := List ℚ

/-- A 3-dimensional numpy array (z, y, x nesting as in `GetArrayFromImage`). -/
abbrev Arr3 := List (List (List ℚ))

/-- Python dict subscript `d[k]`: the value, or a KeyError. -/
def dictGet {α : Type} (d : List (String × α)) (k : String) : Except PyError α :=
  match d.lookup k with
  | some v => .ok v
  | none => .error .keyError

/-- Evaluate `f` over a list left to right, propagating the first raised
exception, as a Python list comprehension or loop does. -/
def mapE {α β : Type} (f : α → Except PyError β) : List α → Except PyError (List β)
  | [] => .ok []
  | x :: xs => do
    let y ← f x
    let ys ← mapE f xs
    pure (y :: ys)

/-- Bind on an ok value is application (simp helper for the Except monad). -/
theorem exceptBind_ok {α β : Type} (a : α) (f : α → Except PyError β) :
    (Except.ok a >>= f : Except PyError β) = f a := rfl

/-- Bind on an error propagates the error (simp helper for the Except monad). -/
theorem exceptBind_err {α β : Type} (e : PyError) (f : α → Except PyError β) :
    (Except.error e >>= f : Except PyError β) = .error e := rfl

/-- Pure in the Except monad is ok (simp helper). -/
theorem exceptPure {α : Type} (a : α) : (pure a : Except PyError α) = .ok a := rfl

/-- Elementwise sum of two images (`sitk` `+` on same-grid images). -/
def imageAdd (a b : Image) : Image := List.zipWith (· + ·) a b

/-- Python `functools.reduce(lambda x, y: x + y, l)`: raises TypeError on an
empty list (no initialiser), otherwise left-folds image addition. -/
def reduceAdd : List Image → Except PyError Image
  | [] => .error .typeError
  | x :: xs => .ok (xs.foldl imageAdd x)

/-- Maximum of a numpy array (`arr.max()`); 0 on the empty array, which numpy
instead rejects — all uses below are on nonempty arrays. -/
def npMax : List ℚ → ℚ
  | [] => 0
  | x :: xs => xs.foldl max x

/-- Minimum of a numpy array (`arr.min()`), same convention as `npMax`. -/
def npMin : List ℚ → ℚ
  | [] => 0
  | x :: xs => xs.foldl min x

/-- The `sitk.Cast(·, sitk.sitkFloat32)` cast: the identity in this exact-
rational idealisation of floating point. -/
def sitkCastFloat32 (im : Image) : Image := im

/-- Python `str.lower()` (ASCII case folding, as used by `vote_type.lower()`). -/
def pyLower (s : String) : String := ⟨s.data.map Char.toLower⟩

/-- Python `int(q)` for the nonnegative rationals this code feeds it
(truncation towards zero). -/
def pyInt (q : ℚ) : ℕ := (q.num / (q.den : ℤ)).toNat

/-! ### mutual_information (fusion.py lines 24-51)

The module header of `fusion.py` (lines 15-21) binds exactly these names; in
particular it never imports `warnings`, yet line 37 of `mutual_information`
evaluates the free name `warnings`.  Python resolves that name against the
module globals at call time, so the very first statement of the function
raises `NameError`.  The embedding keeps that name-resolution step explicit
and still embeds the (unreachable) arithmetic body faithfully. -/

/-- Names bound at module level of `fusion.py` by its import statements. -/
def fusionModuleImports : List String :=
  ["np", "sitk", "reduce", "pearsonr", "view_as_windows", "smooth_and_resample"]

/-- One term of `np.log(p_ab / np.outer(p_a, p_b))` after the fixup
`log_p[~np.isfinite(log_p)] = 0`: a zero numerator gives `log 0 = -inf` and a
zero denominator gives `inf` or `nan`, all of which are replaced by 0; on a
positive finite ratio it is the genuine (external) logarithm `log`. -/
def logTerm (log : ℚ → ℚ) (num den : ℚ) : ℚ :=
  if num = 0 ∨ den = 0 then 0 else log (num / den)

/-- Column sums of a matrix, i.e. `p_ab.sum(axis=0)` (summing over the first
axis, which is what line 42 of the source actually computes for `p_a`). -/
def sumAxis0 : List (List ℚ) → List ℚ
  | [] => []
  | [r] => r
  | r :: rs => List.zipWith (· + ·) r (sumAxis0 rs)

/-- Row sums of a matrix, i.e. `p_ab.sum(axis=1)` (line 43, `p_b`). -/
def sumAxis1 (m : List (List ℚ)) : List ℚ := m.map List.sum

/-- Lines 40-49 of `mutual_information` evaluated on the joint histogram
`p_ab`: `p_a = p_ab.sum(axis=0)`, `p_b = p_ab.sum(axis=1)`,
`log_p = log(p_ab / outer(p_a, p_b))` with non-finite entries zeroed, and
the returned value `(p_ab * log_p).sum()`. -/
def miBody (log : ℚ → ℚ) (p_ab : List (List ℚ)) : ℚ :=
  let p_a := sumAxis0 p_ab
  let p_b := sumAxis1 p_ab
  ((p_ab.zip p_a).map (fun rp =>
    ((rp.1.zip p_b).map (fun qb => qb.1 * logTerm log qb.1 (rp.2 * qb.2))).sum)).sum

/-- The function `mutual_information(arr_a, arr_b, bins=64)` of `fusion.py`.
`log` models `np.log` and `histogram2d` models `np.histogram2d(..., density=True)`;
both are external numpy routines.  Before any of the body can run, the free
name `warnings` on line 37 must resolve in the module globals; `fusion.py`
never imports it, so the call raises `NameError` instead of returning. -/
def mutual_information (log : ℚ → ℚ)
    (histogram2d : List ℚ → List ℚ → ℕ → List (List ℚ))
    (arr_a arr_b : List ℚ) (bins : ℕ) : Except PyError ℚ :=
  if "warnings" ∈ fusionModuleImports then
    .ok (miBody log (histogram2d arr_a arr_b bins))
  else
    .error .nameError

/-! ### combine_labels (fusion.py lines 240-293) -/

/-- The per-case dict `atlas_set[case_id][label]`: structure names and the
key `"Weight Map"` mapped to images. -/
abbrev LabelDict := List (String × Image)

/-- The dict `atlas_set[case_id]`: registration-method label → label dict. -/
abbrev CaseDict := List (String × LabelDict)

/-- The atlas set: case id → case dict, in insertion order. -/
abbrev AtlasSet := List (String × CaseDict)

/-- The dynamic type of the `structure_name` argument: the code dispatches on
`isinstance(structure_name, str)` and `isinstance(structure_name, list)`;
every other runtime type falls through both branches. -/
inductive StructureNameArg
  | str (s : String)
  | list (l : List String)
  | other

/-- Lines 247-250 followed by the `for` of line 254: a `str` wraps into a
one-element list, a `list` passes through, and any other type leaves
`structure_name_list` unbound so the loop header raises `UnboundLocalError`. -/
def structureNameList : StructureNameArg → Except PyError (List String)
  | .str s => .ok [s]
  | .list l => .ok l
  | .other => .error .unboundLocal

/-- Line 256: the cases whose `atlas_set[i][label]` dict contains `s_name`
(`[i for i in case_id_list if s_name in atlas_set[i][label].keys()]`);
a case without the `label` key raises KeyError during the filter. -/
def validCases (label s_name : String) : AtlasSet → Except PyError (List String)
  | [] => .ok []
  | (cid, cdict) :: rest => do
    let ldict ← dictGet cdict label
    let tail ← validCases label s_name rest
    if (ldict.lookup s_name).isSome then pure (cid :: tail) else pure tail

/-- The lookup `atlas_set[case_id][label][key]`. -/
def getEntry (atlas_set : AtlasSet) (label key cid : String) : Except PyError Image := do
  let cdict ← dictGet atlas_set cid
  let ldict ← dictGet cdict label
  dictGet ldict key

/-- Line 266's zero-sum fixup `sitk.Mask(w, w == 0, maskingValue=1,
outsideValue=1)`: voxels where the weight sum is 0 become 1. -/
def maskZeroToOne (im : Image) : Image := im.map (fun w => if w = 0 then 1 else w)

/-- Lines 256-277 of `combine_labels` for one structure, up to and including
the division — the pre-smoothing combined image: filter to contributing
cases, gather and sum their weight maps, replace zero sums by 1, sum the
weight-times-label images, and divide voxelwise. -/
def combineLabelsPre (atlas_set : AtlasSet) (label s_name : String) :
    Except PyError Image := do
  let valid ← validCases label s_name atlas_set
  let weight_image_list ← mapE (getEntry atlas_set label "Weight Map") valid
  let weight_sum_raw ← reduceAdd weight_image_list
  let weight_sum_image := maskZeroToOne weight_sum_raw
  let weighted_labels ← mapE (fun cid => do
    let w ← getEntry atlas_set label "Weight Map" cid
    let l ← getEntry atlas_set label s_name cid
    pure (List.zipWith (· * ·) w (sitkCastFloat32 l))) valid
  let combined ← reduceAdd weighted_labels
  pure (List.zipWith (· / ·) combined weight_sum_image)

/-- `sitk.RescaleIntensity(im, outMin, outMax)`: affine rescale of the
intensity range onto `[outMin, outMax]`. -/
def rescaleIntensity (im : Image) (outMin outMax : ℚ) : Image :=
  let inMin := npMin im
  let inMax := npMax im
  im.map (fun v => (v - inMin) * (outMax - outMin) / (inMax - inMin) + outMin)

/-- `sitk.Threshold(im, lower, upper, outsideValue)`: keep values inside
`[lower, upper]`, replace the rest by `outsideValue`. -/
def thresholdImage (im : Image) (lower upper outside : ℚ) : Image :=
  im.map (fun v => if lower ≤ v ∧ v ≤ upper then v else outside)

/-- Python truthiness test `if threshold:` on a float-or-None argument. -/
def truthy : Option ℚ → Bool
  | none => false
  | some t => t ≠ 0

/-- The threshold-clamp of lines 286-289 (shared with
`combine_labels_staple`): applied only when `threshold` is truthy. -/
def thresholdStep (threshold : Option ℚ) (im : Image) : Image :=
  match threshold with
  | some t => if t ≠ 0 then thresholdImage im t 1 0 else im
  | none => im

/-- The function `combine_labels(atlas_set, structure_name, label, threshold,
smooth_sigma)` of `fusion.py`.  `discreteGaussian` models the external
`sitk.DiscreteGaussian` (image, variance) used for the smoothing step. -/
def combine_labels (discreteGaussian : Image → ℚ → Image)
    (atlas_set : AtlasSet) (structure_name : StructureNameArg) (label : String)
    (threshold : Option ℚ) (smooth_sigma : ℚ) :
    Except PyError (List (String × Image)) := do
  let structure_name_list ← structureNameList structure_name
  mapE (fun s_name => do
    let pre ← combineLabelsPre atlas_set label s_name
    let smoothed := discreteGaussian pre (smooth_sigma * smooth_sigma)
    let rescaled := rescaleIntensity smoothed 0 1
    pure (s_name, thresholdStep threshold rescaled)) structure_name_list

/-- A small concrete atlas set for exercising `combine_labels`: two cases,
both with weight map all ones and a structure `A`. -/
def atlasW : AtlasSet :=
  [("case1", [("DIR", [("Weight Map", [1, 1]), ("A", [1, 0])])]),
   ("case2", [("DIR", [("Weight Map", [1, 1]), ("A", [0, 0])])])]

/-! ### combine_labels_staple (fusion.py lines 206-237) -/

/-- Insert into a sorted list of strings (helper for `npUnique`). -/
def insertSorted (x : String) : List String → List String
  | [] => [x]
  | y :: ys => if x ≤ y then x :: y :: ys else y :: insertSorted x ys

/-- Insertion sort on strings (helper for `npUnique`). -/
def stringSort : List String → List String
  | [] => []
  | x :: xs => insertSorted x (stringSort xs)

/-- Collapse adjacent duplicates of a sorted list (helper for `npUnique`). -/
def uniqAdj : List String → List String
  | [] => []
  | [x] => [x]
  | x :: y :: ys => if x = y then uniqAdj (y :: ys) else x :: uniqAdj (y :: ys)

/-- Model of `np.unique` on a list of strings: sorted distinct values. -/
def npUnique (l : List String) : List String := uniqAdj (stringSort l)

/-- The flattened-then-uniqued structure name list of lines 213-214:
every structure name appearing in any case, sorted and deduplicated. -/
def structureNamesOf (label_list_dict : List (String × List (String × Image))) :
    List String :=
  npUnique ((label_list_dict.map (fun p => p.2.map Prod.fst)).flatten)

/-- `sitk.BinaryThreshold(im, lowerThreshold, upperThreshold, insideValue,
outsideValue)`: 1 inside the window, 0 outside (with the filter defaults
`upperThreshold=255`, `insideValue=1`, `outsideValue=0`). -/
def binaryThreshold (im : Image) (lower upper inside outside : ℚ) : Image :=
  im.map (fun v => if lower ≤ v ∧ v ≤ upper then inside else outside)

/-- The function `combine_labels_staple(label_list_dict, threshold)` of
`fusion.py`.  `staple` models the external EM routine `sitk.STAPLE`.  For
each structure name appearing in any case, lines 218-221 index
`label_list_dict[i][structure_name]` for EVERY case id `i` — with no
membership filter — so a case lacking the structure raises `KeyError`. -/
def combine_labels_staple (staple : List Image → Image)
    (label_list_dict : List (String × List (String × Image)))
    (threshold : Option ℚ) : Except PyError (List (String × Image)) :=
  mapE (fun s_name => do
    let binary_labels ← mapE (fun p => do
      let im ← dictGet p.2 s_name
      pure (binaryThreshold im (1 / 2) 255 1 0)) label_list_dict
    let combined_label := staple binary_labels
    let combined_label := rescaleIntensity combined_label 0 1
    pure (s_name, thresholdStep threshold combined_label))
    (structureNamesOf label_list_dict)

/-- A two-case label dict in which structure `A` is present in `case1` but
absent from `case2`. -/
def stapleInputMissingA : List (String × List (String × Image)) :=
  [("case1", [("A", [1])]), ("case2", [])]

/-! ### compute_weight_map (fusion.py lines 54-203)

External SimpleITK / scipy image routines used by `compute_weight_map` that
are black boxes for this module are gathered into one record of function
parameters; the spec treats them as external collaborators. -/

/-- External routines consumed by `compute_weight_map`:
`discreteGaussian` is `sitk.DiscreteGaussian` (image, variance);
`boxMean` is `sitk.BoxMean` (image, per-axis block size);
`rpow` is the elementwise real power `v ** e` of `sitk.Pow`/`**`;
`dimension` is `target_image.GetDimension()`;
`smoothAndResample` is platipy's `smooth_and_resample` composed with
`sitk.GetArrayFromImage` and `GetSpacing` (modelled from the spec: blur,
then resample isotropically to the requested voxel size, returning the
dense array and the resampled spacing);
`resampleBack` is `sitk.GetImageFromArray`/`CopyInformation`/`sitk.Resample`
onto the original target grid;
`sqrt` is the floating-point square root used inside `scipy.stats.pearsonr`. -/
structure SitkExt where
  discreteGaussian : Image → ℚ → Image
  boxMean : Image → List ℕ → Image
  rpow : ℚ → ℚ → ℚ
  dimension : ℕ
  smoothAndResample : Image → ℚ → Arr3 × List ℚ
  resampleBack : Arr3 → Image → Image
  sqrt : ℚ → ℚ

/-- The runtime type of `vote_params["normalise"]`: the code dispatches on
`isinstance(normalise, bool)` and `isinstance(normalise, sitk.Image)`. -/
inductive NormaliseArg
  | bool (b : Bool)
  | image (im : Image)

/-- The runtime type of `vote_params["blockSize"]`: an int is expanded to a
cube, a tuple is taken as the per-axis sizes. -/
inductive BlockSizeArg
  | int (n : ℕ)
  | tuple (t : List ℕ)

/-- The `vote_params` configuration dict of `compute_weight_map`. -/
structure VoteParams where
  sigma : ℚ
  epsilon : ℚ
  factor : ℚ
  gain : ℚ
  blockSize : BlockSizeArg
  normalise : NormaliseArg
  patch_window_mm : ℚ
  resampled_voxel_size_mm : ℚ
  correlation_function : Image → Image

/-- The default `vote_params` of the source (lines 58-68): sigma 2,
epsilon 1e-5, factor 1e12, gain 6, blockSize 5, normalise False,
patch window 25 mm, resampled voxel 3 mm, correlation function x ↦ x + 1. -/
def defaultVoteParams : VoteParams where
  sigma := 2
  epsilon := 1 / 100000
  factor := 10 ^ 12
  gain := 6
  blockSize := .int 5
  normalise := .bool false
  patch_window_mm := 25
  resampled_voxel_size_mm := 3
  correlation_function := fun img => img.map (· + 1)

/-- `sitk.SquaredDifference(target, moving)`: voxelwise `(t - m)^2`. -/
def squaredDifference (t m : Image) : Image :=
  List.zipWith (fun a b => (a - b) ^ 2) t m

/-- `sitk.Mask(im, msk)` with the default `maskingValue=0, outsideValue=0`:
keep `im` where the mask is nonzero, 0 elsewhere. -/
def sitkMask0 (im msk : Image) : Image :=
  List.zipWith (fun w x => if x = 0 then 0 else w) im msk

/-- The optional normalisation step shared by the `local` and `block`
branches (lines 169-175 and 192-198): `normalise=True` divides by the
global array max; a mask image divides by the max of the masked weight
map; `normalise=False` (or any non-bool, non-image value) is a no-op. -/
def applyNormalise (norm : NormaliseArg) (wm : Image) : Image :=
  match norm with
  | .bool true => wm.map (fun v => v / npMax wm)
  | .bool false => wm
  | .image msk => wm.map (fun v => v / npMax (sitkMask0 wm msk))

/-! #### The patch_correlation pipeline (lines 80-144) -/

/-- Apply a function to every element of a 3-D array. -/
def map3 (f : ℚ → ℚ) (a : Arr3) : Arr3 := a.map (List.map (List.map f))

/-- One entry of line 99's `padder = [((i - 1) // 2, (i) // 2) for i in
window_box_im]`: (lower, upper) zero-padding amounts for one axis of
window size `i`. -/
def padPair (i : ℕ) : ℕ × ℕ := ((i - 1) / 2, i / 2)

/-- Zero-pad one axis of a 1-D array by `(lower, upper)`. -/
def pad1 (p : ℕ × ℕ) (l : List ℚ) : List ℚ :=
  List.replicate p.1 0 ++ l ++ List.replicate p.2 0

/-- An all-zero matrix. -/
def zeros2 (r c : ℕ) : List (List ℚ) := List.replicate r (List.replicate c 0)

/-- Zero-pad a 2-D array by `(lower, upper)` amounts per axis. -/
def pad2 (p1 p2 : ℕ × ℕ) (m : List (List ℚ)) : List (List ℚ) :=
  let c := (m.headD []).length + p2.1 + p2.2
  List.replicate p1.1 (List.replicate c 0) ++ m.map (pad1 p2) ++
    List.replicate p1.2 (List.replicate c 0)

/-- `np.pad(a, padder)` on a 3-D array: zero-pad each axis by its
(lower, upper) amounts. -/
def pad3 (p0 p1 p2 : ℕ × ℕ) (a : Arr3) : Arr3 :=
  let r := (a.headD []).length + p1.1 + p1.2
  let c := ((a.headD []).headD []).length + p2.1 + p2.2
  List.replicate p0.1 (zeros2 r c) ++ a.map (pad2 p1 p2) ++
    List.replicate p0.2 (zeros2 r c)

/-- Number of sliding windows of size `w` along an axis of length `len`
(`skimage.util.view_as_windows`): `len - w + 1`. -/
def numWin (len w : ℕ) : ℕ := len - w + 1

/-- The flattened patch of `view_as_windows(a, (w0,w1,w2))` at window
position `(i,j,k)`: the `w0×w1×w2` sub-block starting there, flattened in
C order (as the later `np.reshape` does). -/
def slice3 (a : Arr3) (i j k w0 w1 w2 : ℕ) : List ℚ :=
  ((a.drop i).take w0).flatMap (fun pl =>
    ((pl.drop j).take w1).flatMap (fun row => (row.drop k).take w2))

/-- All window positions in C order — the row order of
`view_target_flat` after line 111's flattening reshape. -/
def patchPositions (n0 n1 n2 : ℕ) : List (ℕ × ℕ × ℕ) :=
  (List.range n0).flatMap (fun i =>
    (List.range n1).flatMap (fun j =>
      (List.range n2).map (fun k => (i, j, k))))

/-- Line 121-122's fancy indexing `patch[np.where(patch_mask)]`: the values
at the positions where the mask patch is nonzero, in order. -/
def maskSelect (vals mask : List ℚ) : List ℚ :=
  (vals.zip mask).filterMap (fun p => if p.2 ≠ 0 then some p.1 else none)

/-- Sample mean (helper for the Pearson coefficient). -/
def pmean (xs : List ℚ) : ℚ := xs.sum / (xs.length : ℚ)

/-- Sum of squared deviations from the mean (the zero-variance test and the
denominator pieces of the Pearson coefficient). -/
def pvar (xs : List ℚ) : ℚ := (xs.map (fun x => (x - pmean xs) ^ 2)).sum

/-- Sum of products of deviations (the Pearson numerator). -/
def pcov (xs ys : List ℚ) : ℚ :=
  (List.zipWith (fun x y => (x - pmean xs) * (y - pmean ys)) xs ys).sum

/-- Modelled from the documented contract of the external
`scipy.stats.pearsonr(x, y)`: raises `ValueError` when the inputs have
different lengths or fewer than 2 points; returns `nan` (here `none`) when
either input is constant (zero variance); otherwise returns the sample
correlation coefficient, whose denominator uses the external floating
square root `sqrt`. -/
def pearsonr (sqrt : ℚ → ℚ) (xs ys : List ℚ) : Except PyError (Option ℚ) :=
  if xs.length ≠ ys.length then .error .valueError
  else if xs.length < 2 then .error .valueError
  else if pvar xs = 0 ∨ pvar ys = 0 then .ok none
  else .ok (some (pcov xs ys / sqrt (pvar xs * pvar ys)))

/-- Line 130's `corr_arr[np.isnan(corr_arr)] = 0`: a `nan` correlation
becomes 0. -/
def nanToZero : Option ℚ → ℚ
  | none => 0
  | some r => r

/-- Split a flat list into rows of length `k` (row-major reshape helper). -/
def chunkList (k : ℕ) : List ℚ → List (List ℚ)
  | [] => []
  | x :: xs => (x :: xs.take (k - 1)) :: chunkList k (xs.drop (k - 1))
  termination_by l => l.length
  decreasing_by simp; omega

/-- Split a list of rows into planes of `k` rows (reshape helper). -/
def chunkRows (k : ℕ) : List (List ℚ) → Arr3
  | [] => []
  | r :: rs => (r :: rs.take (k - 1)) :: chunkRows k (rs.drop (k - 1))
  termination_by l => l.length
  decreasing_by simp; omega

/-- `np.reshape(flat, (d0, d1, d2))` in C order (d0 is implied by the
length). -/
def reshape3 (l : List ℚ) (d1 d2 : ℕ) : Arr3 := chunkRows d1 (chunkList d2 l)

/-- Lines 80-144, the `patch_correlation` branch of `compute_weight_map`:
resample both images isotropically, build an all-ones validity mask,
compute per-axis window sizes from the patch size in mm, zero-pad all
three arrays, slide a window over every voxel, Pearson-correlate the
mask-selected target and moving patch values, reassemble the correlations
(with `nan` zeroed) into an image on the resampled grid, resample back to
the target grid and apply `correlation_function`.  A `ValueError` raised
by `pearsonr` on a degenerate patch propagates out. -/
def patchCorrelationBranch (ops : SitkExt) (vp : VoteParams)
    (target_image moving_image : Image) : Except PyError Image := do
  let (arr_target, spacing) :=
    ops.smoothAndResample target_image vp.resampled_voxel_size_mm
  let (arr_moving, _) :=
    ops.smoothAndResample moving_image vp.resampled_voxel_size_mm
  let arr_mask := map3 (fun v => 0 * v + 1) arr_target
  let window_box_im := spacing.reverse.map (fun s => pyInt (vp.patch_window_mm / s))
  let w0 := window_box_im.getD 0 0
  let w1 := window_box_im.getD 1 0
  let w2 := window_box_im.getD 2 0
  let at3 := pad3 (padPair w0) (padPair w1) (padPair w2) arr_target
  let am3 := pad3 (padPair w0) (padPair w1) (padPair w2) arr_moving
  let ak3 := pad3 (padPair w0) (padPair w1) (padPair w2) arr_mask
  let n0 := numWin at3.length w0
  let n1 := numWin (at3.headD []).length w1
  let n2 := numWin ((at3.headD []).headD []).length w2
  let corr_values ← mapE (fun pos => do
    let patch_mask := slice3 ak3 pos.1 pos.2.1 pos.2.2 w0 w1 w2
    let patch_target := maskSelect (slice3 at3 pos.1 pos.2.1 pos.2.2 w0 w1 w2) patch_mask
    let patch_moving := maskSelect (slice3 am3 pos.1 pos.2.1 pos.2.2 w0 w1 w2) patch_mask
    pearsonr ops.sqrt patch_target patch_moving) (patchPositions n0 n1 n2)
  let corr_arr := reshape3 (corr_values.map nanToZero)
    (arr_target.headD []).length ((arr_target.headD []).headD []).length
  let corr_img := ops.resampleBack corr_arr target_image
  pure (vp.correlation_function corr_img)

/-- The blurred squared difference of the `local` branch (line 166):
`sitk.DiscreteGaussian(square_difference_image, sigma * sigma)`. -/
def localRawMap (ops : SitkExt) (target_image moving_image : Image)
    (vp : VoteParams) : Image :=
  ops.discreteGaussian (sitkCastFloat32 (squaredDifference target_image moving_image))
    (vp.sigma * vp.sigma)

/-- The un-normalised `local` weight map (line 167):
`sitk.Pow(raw_map + epsilon, -1.0)`. -/
def localWeightMap (ops : SitkExt) (target_image moving_image : Image)
    (vp : VoteParams) : Image :=
  (localRawMap ops target_image moving_image vp).map (fun r => (r + vp.epsilon)⁻¹)

/-- Lines 183-184: an int `blockSize` becomes a cube of the image dimension. -/
def blockSizeList (ops : SitkExt) (vp : VoteParams) : List ℕ :=
  match vp.blockSize with
  | .int n => List.replicate ops.dimension n
  | .tuple t => t

/-- The box-filtered squared difference of the `block` branch (line 187). -/
def blockRawMap (ops : SitkExt) (target_image moving_image : Image)
    (vp : VoteParams) : Image :=
  ops.boxMean (sitkCastFloat32 (squaredDifference target_image moving_image))
    (blockSizeList ops vp)

/-- The un-normalised `block` weight map (line 188):
`factor * sitk.Pow(raw_map, -1.0) ** abs(gain / 2.0)`. -/
def blockWeightMap (ops : SitkExt) (target_image moving_image : Image)
    (vp : VoteParams) : Image :=
  (blockRawMap ops target_image moving_image vp).map (fun r =>
    vp.factor * ops.rpow r⁻¹ |vp.gain / 2|)

/-- The function `compute_weight_map(target_image, moving_image, vote_type,
vote_params)` of `fusion.py`: dispatch on the lower-cased `vote_type` over
the five schemes, with `ValueError` for anything else.  The float casts of
lines 75-78, 147 and 203 are identities in this rational idealisation. -/
def compute_weight_map (ops : SitkExt) (target_image moving_image : Image)
    (vote_type : String) (vote_params : VoteParams) : Except PyError Image :=
  if pyLower vote_type = "patch_correlation" then
    patchCorrelationBranch ops vote_params target_image moving_image
  else if pyLower vote_type = "unweighted" then
    .ok (sitkCastFloat32 (target_image.map (fun x => x * 0 + 1)))
  else if pyLower vote_type = "global" then
    let sum_squared_difference :=
      (sitkCastFloat32 (squaredDifference target_image moving_image)).sum
    let global_weight := vote_params.factor / sum_squared_difference
    .ok (sitkCastFloat32 (target_image.map (fun x => x * 0 + global_weight)))
  else if pyLower vote_type = "local" then
    .ok (sitkCastFloat32 (applyNormalise vote_params.normalise
      (localWeightMap ops target_image moving_image vote_params)))
  else if pyLower vote_type = "block" then
    .ok (sitkCastFloat32 (applyNormalise vote_params.normalise
      (blockWeightMap ops target_image moving_image vote_params)))
  else
    .error .valueError

/-- Concrete external-operation stand-ins used by the witness theorems:
simple computable functions satisfying, at the chosen concrete inputs, the
facts the theorems assume of the real external routines. -/
def opsW : SitkExt where
  discreteGaussian := fun img _ => img
  boxMean := fun img _ => img.map (· + 1)
  rpow := fun v _ => v
  dimension := 3
  smoothAndResample := fun img _ => ([[img]], [3, 3, 3])
  resampleBack := fun a _ => a.flatten.flatten
  sqrt := fun v => v

/-- Default vote parameters with `normalise=True` (witness input). -/
def vpTrue : VoteParams := { defaultVoteParams with normalise := .bool true }

/-- Default vote parameters with `normalise` a mask image (witness input). -/
def vpMask : VoteParams := { defaultVoteParams with normalise := .image [1, 0] }

/-- External stand-ins for the patch-correlation runs: the resampler
returns a fixed 2×2×2 all-zero array at 3 mm isotropic spacing whatever the
input image. -/
def ops4 : SitkExt :=
  { opsW with smoothAndResample := fun _ _ =>
      ([[[0, 0], [0, 0]], [[0, 0], [0, 0]]], [3, 3, 3]) }

/-- Vote parameters with a 6 mm patch window: 2 voxels per axis at 3 mm. -/
def vp4 : VoteParams := { defaultVoteParams with patch_window_mm := 6 }

/-- Vote parameters with a 9 mm patch window: 3 voxels per axis at 3 mm. -/
def vp5 : VoteParams := { defaultVoteParams with patch_window_mm := 9 }

/-! ### process_probability_image (fusion.py lines 296-329) -/

/-- Insert into an ascending list of rationals (helper for `getLabels`). -/
def insertSortedQ (x : ℚ) : List ℚ → List ℚ
  | [] => [x]
  | y :: ys => if x ≤ y then x :: y :: ys else y :: insertSortedQ x ys

/-- Insertion sort on rationals (helper for `getLabels`). -/
def sortQ : List ℚ → List ℚ
  | [] => []
  | x :: xs => insertSortedQ x (sortQ xs)

/-- Collapse adjacent duplicates of a sorted rational list. -/
def uniqAdjQ : List ℚ → List ℚ
  | [] => []
  | [x] => [x]
  | x :: y :: ys => if x = y then uniqAdjQ (y :: ys) else x :: uniqAdjQ (y :: ys)

/-- `LabelShapeStatisticsImageFilter.GetLabels()` after `Execute` on a
labelled image: the distinct nonzero label values present, ascending. -/
def getLabels (labelled : Image) : List ℚ :=
  uniqAdjQ (sortQ (labelled.filter (fun v => decide (v ≠ 0))))

/-- `GetNumberOfPixels(label)`: the voxel count of one labelled component. -/
def voxelCount (labelled : Image) (lab : ℚ) : ℕ := labelled.count lab

/-- Running state of `np.argmax`: remaining list, next index, and the
(best index, best value) so far; strict `<` keeps the FIRST maximum. -/
def argmaxAux : List ℕ → ℕ → ℕ × ℕ → ℕ × ℕ
  | [], _, best => best
  | x :: xs, i, (bi, bv) =>
    if bv < x then argmaxAux xs (i + 1) (i, x) else argmaxAux xs (i + 1) (bi, bv)

/-- `np.argmax` with its value: (index of first maximum, maximum). -/
def argmaxP : List ℕ → ℕ × ℕ
  | [] => (0, 0)
  | x :: xs => argmaxAux xs 1 (0, x)

/-- `np.argmax(voxel_counts)`: the index of the first maximal count. -/
def argmaxIdx (l : List ℕ) : ℕ := (argmaxP l).1

/-- The C-style cast of `sitk.Cast(·, sitk.sitkUInt8)`: truncate and wrap
modulo 256 (only ever applied to 0/1 indicator values below). -/
def castUInt8 (v : ℚ) : ℚ := ((Int.floor v).emod 256 : ℤ)

/-- Lines 305-312: normalise by the array max, binarise at `threshold`
(`sitk.BinaryThreshold` insideValue 1, upper default 255), preparing the
image whose holes are then filled. -/
def binaryOf (probability_image : Image) (threshold : ℚ) : Image :=
  binaryThreshold
    (probability_image.map (fun v => v / npMax probability_image))
    threshold 255 1 0

/-- The hole-filled, connected-component-labelled image that the
post-processor measures (`fill` models `sitk.BinaryFillhole` and `cc` models
`sitk.ConnectedComponent`). -/
def labelledOf (fill cc : Image → Image) (p : Image) (t : ℚ) : Image :=
  cc (fill (binaryOf p t))

/-- The function `process_probability_image(probability_image, threshold)`
of `fusion.py`: normalise, binarise, fill holes, label connected
components, and either return the (empty) filled binary image when there
are no components, or keep exactly the largest component as a uint8 mask.
(A raw-array input is first converted to an image; with images modelled as
arrays that conversion is the identity.) -/
def process_probability_image (fill cc : Image → Image)
    (probability_image : Image) (threshold : ℚ) : Image :=
  let binary_image := fill (binaryOf probability_image threshold)
  let labelled_image := cc binary_image
  let label_indices := getLabels labelled_image
  let voxel_counts := label_indices.map (voxelCount labelled_image)
  if voxel_counts = [] then binary_image
  else
    let largest_component_label := label_indices.getD (argmaxIdx voxel_counts) 0
    (labelled_image.map
      (fun v => if v = largest_component_label then 1 else 0)).map castUInt8

/-! ### List-level helper lemmas -/

theorem getD_zipWith (f : ℚ → ℚ → ℚ) :
    ∀ (a b : Image) (v : ℕ), v < a.length → v < b.length →
      (List.zipWith f a b).getD v 0 = f (a.getD v 0) (b.getD v 0)
  | [], _, v, ha, _ => by simp at ha
  | _ :: _, [], v, _, hb => by simp at hb
  | x :: xs, y :: ys, 0, _, _ => by simp
  | x :: xs, y :: ys, v + 1, ha, hb => by
    simpa using getD_zipWith f xs ys v (by simpa using ha) (by simpa using hb)

theorem getD_map (f : ℚ → ℚ) :
    ∀ (l : Image) (v : ℕ), v < l.length → (l.map f).getD v 0 = f (l.getD v 0)
  | [], v, h => by simp at h
  | x :: xs, 0, _ => by simp
  | x :: xs, v + 1, h => by simpa using getD_map f xs v (by simpa using h)

theorem zipWith_congr_mem {α β γ : Type} {f g : α → β → γ} :
    ∀ {l₁ : List α} {l₂ : List β}, (∀ a ∈ l₁, ∀ b ∈ l₂, f a b = g a b) →
      List.zipWith f l₁ l₂ = List.zipWith g l₁ l₂
  | [], _, _ => by simp
  | _ :: _, [], _ => by simp
  | a :: as, b :: bs, h => by
    simp only [List.zipWith_cons_cons]
    refine congrArg₂ _ (h a (by simp) b (by simp)) (zipWith_congr_mem ?_)
    exact fun x hx y hy => h x (by simp [hx]) y (by simp [hy])

theorem zipWith_snd_map {α β γ : Type} (g : β → γ) :
    ∀ (l₁ : List α) (l₂ : List β), l₁.length = l₂.length →
      List.zipWith (fun _ b => g b) l₁ l₂ = l₂.map g
  | [], [], _ => by simp
  | [], _ :: _, h => by simp at h
  | _ :: _, [], h => by simp at h
  | a :: as, b :: bs, h => by
    simpa using zipWith_snd_map g as bs (by simpa using h)

theorem mapE_ok_length {α β : Type} {f : α → Except PyError β} :
    ∀ {l : List α} {res : List β}, mapE f l = .ok res → res.length = l.length := by
  intro l
  induction l with
  | nil => intro res h; simp [mapE] at h; simp [← h]
  | cons x xs ih =>
    intro res h
    cases hfx : f x with
    | error e => simp [mapE, hfx, exceptBind_err] at h
    | ok y =>
      cases hrest : mapE f xs with
      | error e => simp [mapE, hfx, hrest, exceptBind_ok, exceptBind_err] at h
      | ok ys =>
        simp [mapE, hfx, hrest, exceptBind_ok, exceptPure] at h
        simp [← h, ih hrest]

theorem mapE_pair {α β γ : Type} {f g : α → Except PyError β} {h2 : β → β → γ} :
    ∀ {l : List α} {ws ls : List β}, mapE f l = .ok ws → mapE g l = .ok ls →
      mapE (fun c => do
        let a ← f c
        let b ← g c
        pure (h2 a b)) l = .ok (List.zipWith h2 ws ls) := by
  intro l
  induction l with
  | nil =>
    intro ws ls hw hl
    simp [mapE] at hw hl
    simp [mapE, ← hw, ← hl]
  | cons x xs ih =>
    intro ws ls hw hl
    cases hfx : f x with
    | error e => simp [mapE, hfx, exceptBind_err] at hw
    | ok w =>
      cases hgx : g x with
      | error e => simp [mapE, hgx, exceptBind_err] at hl
      | ok b =>
        cases hfr : mapE f xs with
        | error e => simp [mapE, hfx, hfr, exceptBind_ok, exceptBind_err] at hw
        | ok wr =>
          cases hgr : mapE g xs with
          | error e => simp [mapE, hgx, hgr, exceptBind_ok, exceptBind_err] at hl
          | ok lr =>
            simp [mapE, hfx, hfr, hgx, hgr, exceptBind_ok, exceptPure] at hw hl
            have ih' := ih hfr hgr
            simp only [exceptPure] at ih'
            simp [mapE, hfx, hgx, exceptBind_ok, ih', exceptPure, ← hw, ← hl]

theorem foldl_imageAdd_spec (n v : ℕ) (hv : v < n) :
    ∀ (xs : List Image) (acc : Image), acc.length = n →
      (∀ im ∈ xs, im.length = n) →
      (xs.foldl imageAdd acc).length = n ∧
        (xs.foldl imageAdd acc).getD v 0 =
          acc.getD v 0 + (xs.map (fun im => im.getD v 0)).sum := by
  intro xs
  induction xs with
  | nil => intro acc hacc _; simpa using hacc
  | cons x xs ih =>
    intro acc hacc hall
    have hx : x.length = n := hall x (by simp)
    have h1 : (imageAdd acc x).length = n := by
      simp [imageAdd, List.length_zipWith, hacc, hx]
    obtain ⟨hl, hgd⟩ := ih (imageAdd acc x) h1 (fun im h => hall im (by simp [h]))
    refine ⟨hl, ?_⟩
    rw [List.foldl_cons, hgd, imageAdd,
      getD_zipWith _ acc x v (by omega) (by omega)]
    simp [add_assoc]

theorem mem_of_mem_zipWith {α β γ : Type} {f : α → β → γ} :
    ∀ {l₁ : List α} {l₂ : List β} {c : γ}, c ∈ List.zipWith f l₁ l₂ →
      ∃ a ∈ l₁, ∃ b ∈ l₂, c = f a b
  | [], _, _, h => by simp at h
  | _ :: _, [], _, h => by simp at h
  | a :: as, b :: bs, c, h => by
    rcases (by simpa using h : c = f a b ∨ c ∈ List.zipWith f as bs) with h1 | h1
    · exact ⟨a, by simp, b, by simp, h1⟩
    · obtain ⟨a', ha, b', hb, rfl⟩ := mem_of_mem_zipWith h1
      exact ⟨a', by simp [ha], b', by simp [hb], rfl⟩

/-- C2: the claim says `mutual_information` returns the float
`sum(p_ab * log_p)`.  It cannot: `fusion.py` never imports `warnings`, so the
`with warnings.catch_warnings():` statement on line 37 raises `NameError` on
every call, whatever the arrays, the bins, or the external numpy routines
are — the function never returns a value. -/
theorem C2_mutual_information_always_raises_nameerror
    (log : ℚ → ℚ) (histogram2d : List ℚ → List ℚ → ℕ → List (List ℚ))
    (arr_a arr_b : List ℚ) (bins : ℕ) :
    mutual_information log histogram2d arr_a arr_b bins = .error .nameError := by
  simp [mutual_information, fusionModuleImports]

/-- C3: the claim says a structure missing from some cases is combined from
whichever cases have it.  The code instead indexes every case's dict with
the structure name (lines 218-221), so on an atlas where `case2` lacks
structure `A` the call raises `KeyError` — for every STAPLE routine and
every threshold — before any consensus image is produced. -/
theorem C3_combine_labels_staple_missing_structure_raises_keyerror
    (staple : List Image → Image) (threshold : Option ℚ) :
    combine_labels_staple staple stapleInputMissingA threshold =
      .error .keyError := by
  simp [combine_labels_staple, stapleInputMissingA, structureNamesOf, npUnique,
    stringSort, insertSorted, uniqAdj, mapE, dictGet, List.lookup,
    exceptBind_ok, exceptBind_err, exceptPure]

/-- C1: with at least one contributing case, the pre-smoothing combined
image of `combine_labels` (the value computed by lines 256-277, before the
Gaussian) is, per voxel, the sum over contributing cases of
weight times float-cast label, divided by the weight sum, where a voxel
whose weight sum is 0 has its weight sum replaced by 1.  Consequently a
voxel at which every contributing case has weight exactly 1 gets the
arithmetic mean of the per-case label values, and a voxel at which every
contributing weight is 0 gets combined value 0. -/
theorem C1_combine_labels_pre_smoothing_weighted_average
    (atlas_set : AtlasSet) (label s_name : String) (n v : ℕ)
    (valid : List String) (ws ls : List Image)
    (hvalid : validCases label s_name atlas_set = .ok valid)
    (hne : valid ≠ [])
    (hws : mapE (getEntry atlas_set label "Weight Map") valid = .ok ws)
    (hls : mapE (getEntry atlas_set label s_name) valid = .ok ls)
    (hlws : ∀ w ∈ ws, w.length = n)
    (hlls : ∀ l ∈ ls, l.length = n)
    (hv : v < n) :
    ∃ pre, combineLabelsPre atlas_set label s_name = .ok pre ∧
      pre.length = n ∧
      pre.getD v 0 =
        (List.zipWith (fun w l => w.getD v 0 * l.getD v 0) ws ls).sum /
          (if (ws.map (fun w => w.getD v 0)).sum = 0 then 1
            else (ws.map (fun w => w.getD v 0)).sum) ∧
      ((∀ w ∈ ws, w.getD v 0 = 1) →
        pre.getD v 0 = (ls.map (fun l => l.getD v 0)).sum / (valid.length : ℚ)) ∧
      ((∀ w ∈ ws, w.getD v 0 = 0) → pre.getD v 0 = 0) := by
  have hlen_wsv : ws.length = valid.length := mapE_ok_length hws
  have hlen_lsv : ls.length = valid.length := mapE_ok_length hls
  have hpair := @mapE_pair _ _ _ _ _
    (fun w l => List.zipWith (· * ·) w (sitkCastFloat32 l)) _ _ _ hws hls
  simp only [exceptPure] at hpair
  have hwsne : ws ≠ [] := by
    intro h
    exact hne (List.length_eq_zero.mp (by rw [← hlen_wsv, h]; rfl))
  have hlsne : ls ≠ [] := by
    intro h
    exact hne (List.length_eq_zero.mp (by rw [← hlen_lsv, h]; rfl))
  obtain ⟨w0, wr, rfl⟩ := List.exists_cons_of_ne_nil hwsne
  obtain ⟨l0, lr, rfl⟩ := List.exists_cons_of_ne_nil hlsne
  -- run the embedded function symbolically
  have hrun : combineLabelsPre atlas_set label s_name =
      .ok (List.zipWith (· / ·)
        ((List.zipWith (fun w l => List.zipWith (· * ·) w (sitkCastFloat32 l)) wr lr).foldl
          imageAdd (List.zipWith (· * ·) w0 (sitkCastFloat32 l0)))
        (maskZeroToOne (wr.foldl imageAdd w0))) := by
    simp only [combineLabelsPre, hvalid, exceptBind_ok, hws, hpair,
      List.zipWith_cons_cons, reduceAdd, exceptPure]
  -- voxelwise value of the masked weight sum
  have hw0 : w0.length = n := hlws w0 (by simp)
  have hl0 : l0.length = n := hlls l0 (by simp)
  obtain ⟨hSlen, hSgd⟩ := foldl_imageAdd_spec n v hv wr w0 hw0
    (fun im h => hlws im (by simp [h]))
  have hu0len : (List.zipWith (· * ·) w0 (sitkCastFloat32 l0)).length = n := by
    simp [sitkCastFloat32, List.length_zipWith, hw0, hl0]
  have hwlslen : ∀ im ∈
      List.zipWith (fun w l => List.zipWith (· * ·) w (sitkCastFloat32 l)) wr lr,
      im.length = n := by
    intro im him
    obtain ⟨a, ha, b, hb, rfl⟩ := mem_of_mem_zipWith him
    simp [sitkCastFloat32, List.length_zipWith, hlws a (by simp [ha]),
      hlls b (by simp [hb])]
  obtain ⟨hNlen, hNgd⟩ := foldl_imageAdd_spec n v hv
    (List.zipWith (fun w l => List.zipWith (· * ·) w (sitkCastFloat32 l)) wr lr)
    (List.zipWith (· * ·) w0 (sitkCastFloat32 l0)) hu0len hwlslen
  have hadjlen : (maskZeroToOne (wr.foldl imageAdd w0)).length = n := by
    simp [maskZeroToOne, hSlen]
  -- the weighted-label images taken voxelwise are weight times label
  have hmapmul : ∀ (as bs : List Image), (∀ a ∈ as, a.length = n) →
      (∀ b ∈ bs, b.length = n) →
      (List.zipWith (fun w l => List.zipWith (· * ·) w (sitkCastFloat32 l)) as bs).map
          (fun im => im.getD v 0) =
        List.zipWith (fun w l => w.getD v 0 * l.getD v 0) as bs := by
    intro as bs has hbs
    rw [List.map_zipWith]
    exact zipWith_congr_mem (fun a ha b hb => by
      rw [sitkCastFloat32, getD_zipWith _ a b v (by rw [has a ha]; exact hv)
        (by rw [hbs b hb]; exact hv)])
  have hnum : ((List.zipWith (fun w l => List.zipWith (· * ·) w (sitkCastFloat32 l)) wr lr).foldl
      imageAdd (List.zipWith (· * ·) w0 (sitkCastFloat32 l0))).getD v 0 =
      (List.zipWith (fun w l => w.getD v 0 * l.getD v 0) (w0 :: wr) (l0 :: lr)).sum := by
    rw [hNgd, hmapmul wr lr (fun a ha => hlws a (by simp [ha]))
      (fun b hb => hlls b (by simp [hb]))]
    rw [getD_zipWith _ w0 (sitkCastFloat32 l0) v (by omega) (by rw [sitkCastFloat32, hl0]; exact hv)]
    simp [sitkCastFloat32]
  have hden : (maskZeroToOne (wr.foldl imageAdd w0)).getD v 0 =
      if ((w0 :: wr).map (fun w => w.getD v 0)).sum = 0 then 1
      else ((w0 :: wr).map (fun w => w.getD v 0)).sum := by
    rw [maskZeroToOne, getD_map _ _ v (by omega), hSgd]
    simp
  have hpre : (List.zipWith (· / ·)
      ((List.zipWith (fun w l => List.zipWith (· * ·) w (sitkCastFloat32 l)) wr lr).foldl
        imageAdd (List.zipWith (· * ·) w0 (sitkCastFloat32 l0)))
      (maskZeroToOne (wr.foldl imageAdd w0))).getD v 0 =
      (List.zipWith (fun w l => w.getD v 0 * l.getD v 0) (w0 :: wr) (l0 :: lr)).sum /
        (if ((w0 :: wr).map (fun w => w.getD v 0)).sum = 0 then 1
          else ((w0 :: wr).map (fun w => w.getD v 0)).sum) := by
    rw [getD_zipWith _ _ _ v (by omega) (by omega), hnum, hden]
  refine ⟨_, hrun, by simp [List.length_zipWith, hNlen, hadjlen], hpre, ?_, ?_⟩
  · -- all weights 1 at this voxel: arithmetic mean
    intro hone
    rw [hpre]
    have hz : List.zipWith (fun w l => w.getD v 0 * l.getD v 0) (w0 :: wr) (l0 :: lr) =
        List.zipWith (fun _ l => l.getD v 0) (w0 :: wr) (l0 :: lr) :=
      zipWith_congr_mem (fun a ha b _ => by rw [hone a ha, one_mul])
    have hsnd : List.zipWith (fun _ l => l.getD v 0) (w0 :: wr) (l0 :: lr) =
        (l0 :: lr).map (fun l => l.getD v 0) :=
      zipWith_snd_map _ _ _ (by rw [hlen_wsv, hlen_lsv])
    have hconst : (w0 :: wr).map (fun w => w.getD v 0) =
        (w0 :: wr).map (fun _ => (1 : ℚ)) :=
      List.map_congr_left (fun a ha => hone a ha)
    have hsum1 : ((w0 :: wr).map (fun w => w.getD v 0)).sum = ((w0 :: wr).length : ℚ) := by
      rw [hconst]
      simp [List.map_const', List.sum_replicate]
      ring
    rw [hz, hsnd, hsum1, hlen_wsv]
    have hvpos : 0 < valid.length := List.length_pos.mpr hne
    have hvne : ((valid.length : ℚ)) ≠ 0 := (Nat.cast_pos.mpr hvpos).ne'
    simp [hvne]
  · -- all weights 0 at this voxel: combined value 0
    intro hzero
    rw [hpre]
    have hz : List.zipWith (fun w l => w.getD v 0 * l.getD v 0) (w0 :: wr) (l0 :: lr) =
        List.zipWith (fun _ l => (0 : ℚ) * l.getD v 0) (w0 :: wr) (l0 :: lr) :=
      zipWith_congr_mem (fun a ha b _ => by rw [hzero a ha])
    have hsnd : List.zipWith (fun _ l => (0 : ℚ) * l.getD v 0) (w0 :: wr) (l0 :: lr) =
        (l0 :: lr).map (fun l => (0 : ℚ) * l.getD v 0) :=
      zipWith_snd_map _ _ _ (by rw [hlen_wsv, hlen_lsv])
    rw [hz, hsnd]
    simp

/-- C1 witness: on a two-case atlas with unit weights, voxel 0 of the
pre-smoothing combined image is the mean (1 + 0) / 2 = 1 / 2. -/
theorem C1_combine_labels_pre_smoothing_weighted_average_witness :
    ∃ pre, combineLabelsPre atlasW "DIR" "A" = .ok pre ∧ pre.getD 0 0 = 1 / 2 := by
  obtain ⟨pre, h1, _, h3, _, _⟩ :=
    C1_combine_labels_pre_smoothing_weighted_average atlasW "DIR" "A" 2 0
      ["case1", "case2"] [[1, 1], [1, 1]] [[1, 0], [0, 0]]
      rfl (by simp) rfl rfl (by simp) (by simp) (by omega)
  refine ⟨pre, h1, ?_⟩
  rw [h3]
  norm_num

/-- C10: at its public interface `combine_labels` only accepts a string or a
list for `structure_name`: any other runtime type falls through both
`isinstance` branches, leaving `structure_name_list` unbound, so the loop
header raises `UnboundLocalError`.  The error is raised before any atlas
entry is read: the outcome is the same for every atlas set (second
conjunct), and in this pure embedding the atlas set is trivially untouched. -/
theorem C10_combine_labels_rejects_other_structure_name_types
    (discreteGaussian : Image → ℚ → Image) (a₁ a₂ : AtlasSet) (label : String)
    (threshold : Option ℚ) (smooth_sigma : ℚ) :
    combine_labels discreteGaussian a₁ .other label threshold smooth_sigma =
        .error .unboundLocal ∧
      combine_labels discreteGaussian a₁ .other label threshold smooth_sigma =
        combine_labels discreteGaussian a₂ .other label threshold smooth_sigma := by
  constructor <;> simp [combine_labels, structureNameList, exceptBind_err]

/-! ### Maximum-of-array lemmas -/

theorem foldl_max_init_le : ∀ (xs : List ℚ) (a : ℚ), a ≤ xs.foldl max a
  | [], a => le_refl a
  | x :: xs, a => le_trans (le_max_left a x) (foldl_max_init_le xs (max a x))

theorem mem_le_foldl_max : ∀ (xs : List ℚ) (a x : ℚ), x ∈ xs → x ≤ xs.foldl max a
  | [], _, _, h => absurd h (List.not_mem_nil _)
  | y :: ys, a, x, h => by
    rcases List.mem_cons.mp h with rfl | h'
    · exact le_trans (le_max_right a x) (foldl_max_init_le ys (max a x))
    · exact mem_le_foldl_max ys (max a y) x h'

theorem foldl_max_le : ∀ (xs : List ℚ) (a b : ℚ), a ≤ b → (∀ x ∈ xs, x ≤ b) →
    xs.foldl max a ≤ b
  | [], _, _, ha, _ => ha
  | x :: xs, a, b, ha, hall =>
    foldl_max_le xs (max a x) b (max_le ha (hall x (by simp)))
      (fun y hy => hall y (by simp [hy]))

theorem foldl_max_mem : ∀ (xs : List ℚ) (a : ℚ), xs.foldl max a = a ∨ xs.foldl max a ∈ xs
  | [], _ => Or.inl rfl
  | x :: xs, a => by
    rcases foldl_max_mem xs (max a x) with h | h
    · rcases le_total a x with hax | hxa
      · right
        rw [List.foldl_cons, h, max_eq_right hax]
        simp
      · left
        rw [List.foldl_cons, h, max_eq_left hxa]
    · right
      simp [h]

theorem npMax_mem : ∀ {l : List ℚ}, l ≠ [] → npMax l ∈ l
  | [], h => absurd rfl h
  | x :: xs, _ => by
    rcases foldl_max_mem xs x with h1 | h1 <;> simp [npMax, h1]

theorem le_npMax : ∀ {l : List ℚ} {x : ℚ}, x ∈ l → x ≤ npMax l
  | [], _, h => absurd h (List.not_mem_nil _)
  | y :: ys, x, h => by
    rcases List.mem_cons.mp h with rfl | h'
    · exact foldl_max_init_le ys x
    · exact mem_le_foldl_max ys y x h'

theorem npMax_le : ∀ {l : List ℚ} {b : ℚ}, l ≠ [] → (∀ x ∈ l, x ≤ b) → npMax l ≤ b
  | [], _, h, _ => absurd rfl h
  | x :: xs, b, _, hall =>
    foldl_max_le xs x b (hall x (by simp)) (fun y hy => hall y (by simp [hy]))

theorem foldl_max_div (M : ℚ) (hM : 0 < M) :
    ∀ (xs : List ℚ) (a : ℚ),
      (xs.map (fun v => v / M)).foldl max (a / M) = (xs.foldl max a) / M
  | [], _ => rfl
  | x :: xs, a => by
    rw [List.map_cons, List.foldl_cons, List.foldl_cons, max_div_div_right hM.le]
    exact foldl_max_div M hM xs (max a x)

theorem npMax_map_div : ∀ (l : List ℚ) (M : ℚ), 0 < M →
    npMax (l.map (fun v => v / M)) = npMax l / M
  | [], M, _ => by simp [npMax]
  | x :: xs, M, hM => by
    simp only [npMax, List.map_cons]
    exact foldl_max_div M hM xs x

theorem npMax_normalize {l : List ℚ} (hne : l ≠ []) (hpos : 0 < npMax l) :
    npMax (l.map (fun v => v / npMax l)) = 1 := by
  rw [npMax_map_div l (npMax l) hpos, div_self hpos.ne']

theorem mem_maskSelect_mem_left {x : ℚ} :
    ∀ {wm msk : List ℚ}, x ∈ maskSelect wm msk → x ∈ wm
  | [], _, h => by simp [maskSelect] at h
  | _ :: _, [], h => by simp [maskSelect] at h
  | w :: ws, k :: ks, h => by
    by_cases hk : k = 0
    · simp only [maskSelect, List.zip_cons_cons, List.filterMap_cons, hk] at h
      simp only [ne_eq, not_true_eq_false, if_false] at h
      exact List.mem_cons_of_mem _ (mem_maskSelect_mem_left h)
    · simp only [maskSelect, List.zip_cons_cons, List.filterMap_cons, ne_eq, hk,
        not_false_eq_true, if_true] at h
      rcases List.mem_cons.mp h with rfl | h'
      · simp
      · exact List.mem_cons_of_mem _ (mem_maskSelect_mem_left h')

theorem mem_maskSelect_mem_mask0 {x : ℚ} :
    ∀ {wm msk : List ℚ}, x ∈ maskSelect wm msk → x ∈ sitkMask0 wm msk
  | [], _, h => by simp [maskSelect] at h
  | _ :: _, [], h => by simp [maskSelect] at h
  | w :: ws, k :: ks, h => by
    by_cases hk : k = 0
    · simp only [maskSelect, List.zip_cons_cons, List.filterMap_cons, hk] at h
      simp only [ne_eq, not_true_eq_false, if_false] at h
      exact List.mem_cons_of_mem _ (mem_maskSelect_mem_mask0 h)
    · simp only [maskSelect, List.zip_cons_cons, List.filterMap_cons, ne_eq, hk,
        not_false_eq_true, if_true] at h
      rcases List.mem_cons.mp h with rfl | h'
      · simp [sitkMask0, hk]
      · exact List.mem_cons_of_mem _ (mem_maskSelect_mem_mask0 h')

theorem mem_mask0_cases {x : ℚ} :
    ∀ {wm msk : List ℚ}, x ∈ sitkMask0 wm msk → x = 0 ∨ x ∈ maskSelect wm msk
  | [], _, h => by simp [sitkMask0] at h
  | _ :: _, [], h => by simp [sitkMask0] at h
  | w :: ws, k :: ks, h => by
    by_cases hk : k = 0
    · simp only [sitkMask0, List.zipWith_cons_cons, hk, if_true] at h
      rcases List.mem_cons.mp h with rfl | h'
      · exact Or.inl rfl
      · rcases mem_mask0_cases h' with h0 | hm
        · exact Or.inl h0
        · right
          simp only [maskSelect, List.zip_cons_cons, List.filterMap_cons, hk]
          simp only [ne_eq, not_true_eq_false, if_false]
          exact hm
    · simp only [sitkMask0, List.zipWith_cons_cons, hk, if_false] at h
      rcases List.mem_cons.mp h with rfl | h'
      · right
        simp [maskSelect, List.filterMap_cons, hk]
      · rcases mem_mask0_cases h' with h0 | hm
        · exact Or.inl h0
        · right
          simp only [maskSelect, List.zip_cons_cons, List.filterMap_cons, ne_eq, hk,
            not_false_eq_true, if_true]
          exact List.mem_cons_of_mem _ hm

theorem npMax_sitkMask0_eq_maskSelect {wm msk : List ℚ}
    (hpos : ∀ x ∈ wm, 0 < x) (hne : maskSelect wm msk ≠ []) :
    npMax (sitkMask0 wm msk) = npMax (maskSelect wm msk) := by
  have hselpos : ∀ x ∈ maskSelect wm msk, 0 < x :=
    fun x hx => hpos x (mem_maskSelect_mem_left hx)
  have hmaxsel : 0 < npMax (maskSelect wm msk) := hselpos _ (npMax_mem hne)
  have h0ne : sitkMask0 wm msk ≠ [] := by
    intro h0
    exact hne (List.eq_nil_of_subset_nil
      (fun x hx => by rw [← h0]; exact mem_maskSelect_mem_mask0 hx) ▸ rfl)
  apply le_antisymm
  · apply npMax_le h0ne
    intro x hx
    rcases mem_mask0_cases hx with rfl | hm
    · exact hmaxsel.le
    · exact le_npMax hm
  · apply npMax_le hne
    intro x hx
    exact le_npMax (mem_maskSelect_mem_mask0 hx)

/-- C5: an unrecognised `vote_type` (one whose lower-cased form is none of
the five scheme names) makes `compute_weight_map` raise `ValueError` with no
weight map produced, and the dispatch is case-insensitive: two `vote_type`
strings with the same lower-cased form produce identical results. -/
theorem C5_compute_weight_map_vote_type_dispatch
    (ops : SitkExt) (target_image moving_image : Image) (vote_params : VoteParams)
    (s₁ s₂ : String) :
    (pyLower s₁ ∉
        (["unweighted", "global", "local", "block", "patch_correlation"] : List String) →
      compute_weight_map ops target_image moving_image s₁ vote_params =
        .error .valueError) ∧
    (pyLower s₁ = pyLower s₂ →
      compute_weight_map ops target_image moving_image s₁ vote_params =
        compute_weight_map ops target_image moving_image s₂ vote_params) := by
  constructor
  · intro h
    simp only [List.mem_cons, List.not_mem_nil, or_false, not_or] at h
    obtain ⟨h1, h2, h3, h4, h5⟩ := h
    simp [compute_weight_map, h1, h2, h3, h4, h5]
  · intro h
    simp only [compute_weight_map, h]

/-- C5 witness: the vote type "fancy" raises `ValueError`, and "LoCaL"
behaves exactly as "local". -/
theorem C5_compute_weight_map_vote_type_dispatch_witness :
    compute_weight_map opsW [0, 1] [1, 1] "fancy" defaultVoteParams =
      .error .valueError ∧
    compute_weight_map opsW [0, 1] [1, 1] "LoCaL" defaultVoteParams =
      compute_weight_map opsW [0, 1] [1, 1] "local" defaultVoteParams :=
  ⟨(C5_compute_weight_map_vote_type_dispatch opsW [0, 1] [1, 1] defaultVoteParams
      "fancy" "fancy").1 (by decide),
    (C5_compute_weight_map_vote_type_dispatch opsW [0, 1] [1, 1] defaultVoteParams
      "LoCaL" "local").2 (by decide)⟩

/-- C7: for a target/moving pair with nonzero total squared difference, the
`global` scheme returns a spatially constant weight map: every voxel equals
`factor` divided by the sum over all voxels of the squared difference.  (The
double-precision accumulation of the source is exact in this rational
idealisation.) -/
theorem C7_compute_weight_map_global_constant
    (ops : SitkExt) (target_image moving_image : Image) (vote_params : VoteParams)
    (h : (squaredDifference target_image moving_image).sum ≠ 0) :
    compute_weight_map ops target_image moving_image "global" vote_params =
      .ok (target_image.map (fun x => x * 0 +
        vote_params.factor / (squaredDifference target_image moving_image).sum)) ∧
    ∀ q ∈ target_image.map (fun x => x * 0 +
        vote_params.factor / (squaredDifference target_image moving_image).sum),
      q = vote_params.factor / (squaredDifference target_image moving_image).sum := by
  constructor
  · have hpc : pyLower "global" ≠ "patch_correlation" := by decide
    have hun : pyLower "global" ≠ "unweighted" := by decide
    have hg : pyLower "global" = "global" := by decide
    simp [compute_weight_map, hpc, hun, hg, sitkCastFloat32]
  · intro q hq
    obtain ⟨x, _, rfl⟩ := List.mem_map.mp hq
    ring

/-- C7 witness: target [0,1] against moving [1,1] has total squared
difference 1, so the global weight map is constantly `factor = 10^12`. -/
theorem C7_compute_weight_map_global_constant_witness :
    compute_weight_map opsW [0, 1] [1, 1] "global" defaultVoteParams =
      .ok [10 ^ 12, 10 ^ 12] := by
  have h := (C7_compute_weight_map_global_constant opsW [0, 1] [1, 1]
    defaultVoteParams (by norm_num [squaredDifference])).1
  rw [h]
  norm_num [squaredDifference, defaultVoteParams]

/-- C8: for `local` and `block` with `normalise=True`, the returned weight
map is the raw weight map divided by its own maximum, whose maximum is
exactly 1 (the `local` hypotheses are that the external Gaussian output is
nonnegative, `epsilon` is positive and the map is nonempty; the `block`
hypotheses are that the weight values are positive and nonempty); and with
`normalise` an image, both the `local` and the `block` map are divided by
the maximum of the masked weight map, which equals the maximum of the
weight map restricted to the masked voxels whenever some voxel is masked. -/
theorem C8_compute_weight_map_normalisation
    (ops : SitkExt) (t m : Image) (vp₁ vp₂ vp₃ vp₄ : VoteParams) (msk : Image)
    (h₁ : vp₁.normalise = .bool true) (h₂ : vp₂.normalise = .bool true)
    (h₃ : vp₃.normalise = .image msk) (h₄ : vp₄.normalise = .image msk) :
    (compute_weight_map ops t m "local" vp₁ =
        .ok ((localWeightMap ops t m vp₁).map
          (fun v => v / npMax (localWeightMap ops t m vp₁))) ∧
      ((∀ r ∈ localRawMap ops t m vp₁, 0 ≤ r) → 0 < vp₁.epsilon →
        localRawMap ops t m vp₁ ≠ [] →
        npMax ((localWeightMap ops t m vp₁).map
          (fun v => v / npMax (localWeightMap ops t m vp₁))) = 1)) ∧
    (compute_weight_map ops t m "block" vp₂ =
        .ok ((blockWeightMap ops t m vp₂).map
          (fun v => v / npMax (blockWeightMap ops t m vp₂))) ∧
      ((∀ x ∈ blockWeightMap ops t m vp₂, 0 < x) →
        blockWeightMap ops t m vp₂ ≠ [] →
        npMax ((blockWeightMap ops t m vp₂).map
          (fun v => v / npMax (blockWeightMap ops t m vp₂))) = 1)) ∧
    (compute_weight_map ops t m "local" vp₃ =
        .ok ((localWeightMap ops t m vp₃).map
          (fun v => v / npMax (sitkMask0 (localWeightMap ops t m vp₃) msk))) ∧
      ((∀ r ∈ localRawMap ops t m vp₃, 0 ≤ r) → 0 < vp₃.epsilon →
        maskSelect (localWeightMap ops t m vp₃) msk ≠ [] →
        npMax (sitkMask0 (localWeightMap ops t m vp₃) msk) =
          npMax (maskSelect (localWeightMap ops t m vp₃) msk))) ∧
    (compute_weight_map ops t m "block" vp₄ =
        .ok ((blockWeightMap ops t m vp₄).map
          (fun v => v / npMax (sitkMask0 (blockWeightMap ops t m vp₄) msk))) ∧
      ((∀ x ∈ blockWeightMap ops t m vp₄, 0 < x) →
        maskSelect (blockWeightMap ops t m vp₄) msk ≠ [] →
        npMax (sitkMask0 (blockWeightMap ops t m vp₄) msk) =
          npMax (maskSelect (blockWeightMap ops t m vp₄) msk))) := by
  have hpc : pyLower "local" ≠ "patch_correlation" := by decide
  have hun : pyLower "local" ≠ "unweighted" := by decide
  have hgl : pyLower "local" ≠ "global" := by decide
  have hlo : pyLower "local" = "local" := by decide
  have hbpc : pyLower "block" ≠ "patch_correlation" := by decide
  have hbun : pyLower "block" ≠ "unweighted" := by decide
  have hbgl : pyLower "block" ≠ "global" := by decide
  have hblo : pyLower "block" ≠ "local" := by decide
  have hbl : pyLower "block" = "block" := by decide
  have hposloc : ∀ (vp : VoteParams), (∀ r ∈ localRawMap ops t m vp, 0 ≤ r) →
      0 < vp.epsilon → ∀ x ∈ localWeightMap ops t m vp, 0 < x := by
    intro vp hr heps x hx
    obtain ⟨r, hrm, rfl⟩ := List.mem_map.mp hx
    have := hr r hrm
    have hsum : 0 < r + vp.epsilon := by linarith
    exact inv_pos.mpr hsum
  refine ⟨⟨?_, ?_⟩, ⟨?_, ?_⟩, ⟨?_, ?_⟩, ⟨?_, ?_⟩⟩
  · simp [compute_weight_map, hpc, hun, hgl, hlo, h₁, applyNormalise, sitkCastFloat32]
  · intro hr heps hne
    have hlne : localWeightMap ops t m vp₁ ≠ [] := by
      simpa [localWeightMap, List.map_eq_nil_iff] using hne
    have hmaxpos : 0 < npMax (localWeightMap ops t m vp₁) :=
      hposloc vp₁ hr heps _ (npMax_mem hlne)
    exact npMax_normalize hlne hmaxpos
  · simp [compute_weight_map, hbpc, hbun, hbgl, hblo, hbl, h₂, applyNormalise,
      sitkCastFloat32]
  · intro hpos hne
    have hmaxpos : 0 < npMax (blockWeightMap ops t m vp₂) :=
      hpos _ (npMax_mem hne)
    exact npMax_normalize hne hmaxpos
  · simp [compute_weight_map, hpc, hun, hgl, hlo, h₃, applyNormalise, sitkCastFloat32]
  · intro hr heps hne
    exact npMax_sitkMask0_eq_maskSelect (hposloc vp₃ hr heps) hne
  · simp [compute_weight_map, hbpc, hbun, hbgl, hblo, hbl, h₄, applyNormalise,
      sitkCastFloat32]
  · intro hpos hne
    exact npMax_sitkMask0_eq_maskSelect hpos hne

/-- C8 witness: at target [0,1], moving [1,1], with the identity-like
external stand-ins, the normalised local and block maps have maximum
exactly 1, and for both schemes the masked divisor equals the maximum of
the weight map restricted to the masked voxels. -/
theorem C8_compute_weight_map_normalisation_witness :
    npMax ((localWeightMap opsW [0, 1] [1, 1] vpTrue).map
      (fun v => v / npMax (localWeightMap opsW [0, 1] [1, 1] vpTrue))) = 1 ∧
    npMax ((blockWeightMap opsW [0, 1] [1, 1] vpTrue).map
      (fun v => v / npMax (blockWeightMap opsW [0, 1] [1, 1] vpTrue))) = 1 ∧
    npMax (sitkMask0 (localWeightMap opsW [0, 1] [1, 1] vpMask) [1, 0]) =
      npMax (maskSelect (localWeightMap opsW [0, 1] [1, 1] vpMask) [1, 0]) ∧
    npMax (sitkMask0 (blockWeightMap opsW [0, 1] [1, 1] vpMask) [1, 0]) =
      npMax (maskSelect (blockWeightMap opsW [0, 1] [1, 1] vpMask) [1, 0]) := by
  obtain ⟨⟨_, p1⟩, ⟨_, p2⟩, ⟨_, p3⟩, ⟨_, p4⟩⟩ :=
    C8_compute_weight_map_normalisation opsW [0, 1] [1, 1] vpTrue vpTrue vpMask
      vpMask [1, 0] rfl rfl rfl rfl
  refine ⟨p1 ?_ ?_ ?_, p2 ?_ ?_, p3 ?_ ?_ ?_, p4 ?_ ?_⟩
  · intro r hr
    simp only [localRawMap, opsW, squaredDifference, sitkCastFloat32] at hr
    norm_num at hr
    rcases hr with rfl | rfl <;> norm_num
  · norm_num [vpTrue, defaultVoteParams]
  · simp [localRawMap, opsW, squaredDifference, sitkCastFloat32]
  · intro x hx
    simp only [blockWeightMap, blockRawMap, blockSizeList, opsW, vpTrue,
      defaultVoteParams, squaredDifference, sitkCastFloat32] at hx
    norm_num at hx
    rcases hx with rfl | rfl <;> norm_num
  · simp [blockWeightMap, blockRawMap, blockSizeList, opsW, squaredDifference,
      sitkCastFloat32]
  · intro r hr
    simp only [localRawMap, opsW, squaredDifference, sitkCastFloat32] at hr
    norm_num at hr
    rcases hr with rfl | rfl <;> norm_num
  · norm_num [vpMask, defaultVoteParams]
  · simp [maskSelect, localWeightMap, localRawMap, opsW, squaredDifference,
      sitkCastFloat32]
  · intro x hx
    simp only [blockWeightMap, blockRawMap, blockSizeList, opsW, vpMask,
      defaultVoteParams, squaredDifference, sitkCastFloat32] at hx
    norm_num at hx
    rcases hx with rfl | rfl <;> norm_num
  · simp [maskSelect, blockWeightMap, blockRawMap, blockSizeList, opsW,
      squaredDifference, sitkCastFloat32]

/-- C6 counterexample: the claim's asymmetry rule says an odd window size
gives the lower side one more voxel of padding than the upper side.  At
window size 5 — odd — line 99's `((i - 1) // 2, i // 2)` pads both sides by
2, so the rule fails. -/
theorem C6_counterexample_odd_window_does_not_favor_lower :
    Odd 5 ∧ (padPair 5).1 = 2 ∧ (padPair 5).2 = 2 ∧
      ¬(padPair 5).1 = (padPair 5).2 + 1 := by
  refine ⟨⟨2, by norm_num⟩, by decide, by decide, by decide⟩

/-- C6 (amended): the arrays are zero-padded per axis by
`((i-1)//2, i//2)`, which is symmetric for an odd window size and gives the
UPPER side one more voxel for an even window size; the two pads always sum
to `w - 1`, so the number of sliding windows over the padded axis equals the
original axis length — every voxel has a full patch. -/
theorem C6_patch_padding_amended (w : ℕ) (hw : 1 ≤ w) :
    (padPair w).1 + (padPair w).2 = w - 1 ∧
    (Odd w → (padPair w).1 = (padPair w).2) ∧
    (Even w → (padPair w).2 = (padPair w).1 + 1) ∧
    ∀ (l : List ℚ), l ≠ [] → numWin (pad1 (padPair w) l).length w = l.length := by
  refine ⟨?_, ?_, ?_, ?_⟩
  · simp only [padPair]
    omega
  · intro ho
    obtain ⟨k, rfl⟩ := ho
    simp only [padPair]
    omega
  · intro he
    obtain ⟨k, rfl⟩ := he
    simp only [padPair]
    omega
  · intro l hl
    have hlen : 1 ≤ l.length := List.length_pos.mpr hl
    simp only [pad1, numWin, padPair, List.length_append, List.length_replicate]
    omega

/-- C6 witness: window 4 pads (1, 2) — upper side one more; window 5 pads
(2, 2) — symmetric; padding a 3-voxel axis for window 4 yields exactly 3
sliding windows. -/
theorem C6_patch_padding_amended_witness :
    (padPair 4).2 = (padPair 4).1 + 1 ∧ (padPair 5).1 = (padPair 5).2 ∧
      numWin (pad1 (padPair 4) [5, 7, 9]).length 4 = 3 :=
  ⟨(C6_patch_padding_amended 4 (by norm_num)).2.2.1 ⟨2, by norm_num⟩,
    (C6_patch_padding_amended 5 (by norm_num)).2.1 ⟨2, by norm_num⟩,
    (C6_patch_padding_amended 4 (by norm_num)).2.2.2 [5, 7, 9] (by simp)⟩

/-- C4 counterexample: `compute_weight_map` with `patch_correlation` CAN
raise on a degenerate patch.  With a 2×2×2 resampled grid and a 6 mm window
(2 voxels per axis), the corner patch at window position (1,1,1) contains a
single unmasked voxel, and `scipy.stats.pearsonr` raises `ValueError` on
inputs of length < 2, so the whole call raises instead of contributing 0. -/
theorem C4_counterexample_one_point_patch_raises_valueerror :
    compute_weight_map ops4 [0] [0] "patch_correlation" vp4 =
      .error .valueError := by
  have hpc : pyLower "patch_correlation" = "patch_correlation" := by decide
  have hp : pyInt (2 : ℚ) = 2 := by
    norm_num [pyInt]
    decide
  simp only [compute_weight_map, hpc, if_pos]
  set_option maxHeartbeats 2000000 in
  norm_num [patchCorrelationBranch, ops4, opsW, vp4, defaultVoteParams, map3,
    hp, padPair, pad3, pad2, pad1, zeros2, numWin, patchPositions,
    List.range_succ, slice3, maskSelect, pearsonr, pmean, pvar, pcov,
    nanToZero, mapE, List.replicate_succ, List.filterMap_cons, exceptBind_ok,
    exceptBind_err, exceptPure]

/-- C4 (amended): a degenerate patch with zero variance in either value
list (but at least 2 unmasked points) yields `nan` from `pearsonr` — not an
exception — which line 130 replaces by correlation 0, and the default
`correlation_function` then maps it to weight exactly 1 (end to end: a
constant resampled target gives the all-ones weight map, fourth conjunct);
but a patch with fewer than 2 unmasked points makes `pearsonr` raise
`ValueError`, so `compute_weight_map` raises rather than contributing 0. -/
theorem C4_patch_degenerate_amended :
    (∀ (sqrt : ℚ → ℚ) (xs ys : List ℚ), xs.length = ys.length →
      xs.length < 2 → pearsonr sqrt xs ys = .error .valueError) ∧
    (∀ (sqrt : ℚ → ℚ) (xs ys : List ℚ), xs.length = ys.length →
      2 ≤ xs.length → (pvar xs = 0 ∨ pvar ys = 0) →
      pearsonr sqrt xs ys = .ok none) ∧
    defaultVoteParams.correlation_function [nanToZero none] = [1] ∧
    compute_weight_map ops4 [0] [0] "patch_correlation" vp5 =
      .ok [1, 1, 1, 1, 1, 1, 1, 1] := by
  refine ⟨?_, ?_, ?_, ?_⟩
  · intro sqrt xs ys h h2
    rw [pearsonr, if_neg (by omega : ¬xs.length ≠ ys.length), if_pos h2]
  · intro sqrt xs ys h h2 hz
    rw [pearsonr, if_neg (by omega : ¬xs.length ≠ ys.length),
      if_neg (by omega : ¬xs.length < 2), if_pos hz]
  · norm_num [defaultVoteParams, nanToZero]
  · have hpc : pyLower "patch_correlation" = "patch_correlation" := by decide
    have hp : pyInt (3 : ℚ) = 3 := by
      norm_num [pyInt]
      decide
    simp only [compute_weight_map, hpc, if_pos]
    set_option maxHeartbeats 4000000 in
    norm_num [patchCorrelationBranch, ops4, opsW, vp5, defaultVoteParams, map3,
      hp, padPair, pad3, pad2, pad1, zeros2, numWin, patchPositions,
      List.range_succ, slice3, maskSelect, pearsonr, pmean, pvar, pcov,
      nanToZero, mapE, List.replicate_succ, List.filterMap_cons, reshape3,
      chunkList, chunkRows, exceptBind_ok, exceptBind_err, exceptPure]

/-- C4 witness: `pearsonr` on length-1 inputs raises `ValueError`, and on a
zero-variance pair of length 2 returns `nan` (None). -/
theorem C4_patch_degenerate_amended_witness :
    pearsonr (fun v => v) [0] [0] = .error .valueError ∧
    pearsonr (fun v => v) [(0 : ℚ), 0] [0, 1] = .ok none :=
  ⟨C4_patch_degenerate_amended.1 (fun v => v) [0] [0] rfl (by norm_num),
    C4_patch_degenerate_amended.2.1 (fun v => v) [0, 0] [0, 1] rfl (by norm_num)
      (Or.inl (by norm_num [pvar, pmean]))⟩

/-! ### argmax lemmas and the post-processor claim -/

theorem getD_map_general {α β : Type} (f : α → β) (dA : α) (dB : β) :
    ∀ (l : List α) (v : ℕ), v < l.length → (l.map f).getD v dB = f (l.getD v dA)
  | [], v, h => by simp at h
  | x :: xs, 0, _ => by simp
  | x :: xs, v + 1, h => by simpa using getD_map_general f dA dB xs v (by simpa using h)

theorem argmaxAux_le : ∀ (xs : List ℕ) (i bi bv : ℕ),
    bv ≤ (argmaxAux xs i (bi, bv)).2 ∧ ∀ x ∈ xs, x ≤ (argmaxAux xs i (bi, bv)).2
  | [], _, _, _ => ⟨le_refl _, by simp⟩
  | x :: xs, i, bi, bv => by
    by_cases h : bv < x
    · obtain ⟨h1, h2⟩ := argmaxAux_le xs (i + 1) i x
      refine ⟨le_trans h.le ?_, ?_⟩
      · simpa [argmaxAux, h] using h1
      · intro y hy
        rcases List.mem_cons.mp hy with rfl | hy'
        · simpa [argmaxAux, h] using h1
        · simpa [argmaxAux, h] using h2 y hy'
    · obtain ⟨h1, h2⟩ := argmaxAux_le xs (i + 1) bi bv
      refine ⟨by simpa [argmaxAux, h] using h1, ?_⟩
      intro y hy
      rcases List.mem_cons.mp hy with rfl | hy'
      · exact le_trans (Nat.le_of_not_lt h) (by simpa [argmaxAux, h] using h1)
      · simpa [argmaxAux, h] using h2 y hy'

theorem argmaxAux_getD : ∀ (xs pre : List ℕ) (bi bv : ℕ), bi < pre.length →
    pre.getD bi 0 = bv →
    (argmaxAux xs pre.length (bi, bv)).1 < (pre ++ xs).length ∧
      (pre ++ xs).getD (argmaxAux xs pre.length (bi, bv)).1 0 =
        (argmaxAux xs pre.length (bi, bv)).2
  | [], pre, bi, bv, hbi, hget => by
    simp only [argmaxAux, List.append_nil]
    exact ⟨hbi, hget⟩
  | x :: xs, pre, bi, bv, hbi, hget => by
    by_cases h : bv < x
    · have hrec := argmaxAux_getD xs (pre ++ [x]) pre.length x
        (by simp)
        (by rw [List.getD_append_right pre [x] 0 pre.length (le_refl _)]; simp)
      rw [show (pre ++ [x]).length = pre.length + 1 by simp,
        List.append_assoc, List.singleton_append] at hrec
      simpa [argmaxAux, h] using hrec
    · have hrec := argmaxAux_getD xs (pre ++ [x]) bi bv
        (by simp; omega)
        (by rw [List.getD_append pre [x] 0 bi hbi]; exact hget)
      rw [show (pre ++ [x]).length = pre.length + 1 by simp,
        List.append_assoc, List.singleton_append] at hrec
      simpa [argmaxAux, h] using hrec

theorem argmax_spec {l : List ℕ} (h : l ≠ []) :
    argmaxIdx l < l.length ∧ l.getD (argmaxIdx l) 0 = (argmaxP l).2 ∧
      ∀ c ∈ l, c ≤ (argmaxP l).2 := by
  obtain ⟨x, xs, rfl⟩ := List.exists_cons_of_ne_nil h
  have hg := argmaxAux_getD xs [x] 0 x (by simp) (by simp)
  have hl := argmaxAux_le xs 1 0 x
  simp only [List.length_singleton, List.singleton_append] at hg
  refine ⟨by simpa [argmaxIdx, argmaxP] using hg.1,
    by simpa [argmaxIdx, argmaxP] using hg.2, ?_⟩
  intro c hc
  rcases List.mem_cons.mp hc with rfl | hc'
  · simpa [argmaxP] using hl.1
  · simpa [argmaxP] using hl.2 c hc'

/-- C9: the post-processor returns the (hole-filled, hence still empty)
binary image unchanged when the labelled image has zero connected
components; otherwise its result is the uint8 indicator of one label of the
labelled image whose voxel count is maximal among all components — exactly
the largest connected component, all others discarded — and its voxel
values are only 0 and 1. -/
theorem C9_process_probability_image_largest_component
    (fill cc : Image → Image) (probability_image : Image) (threshold : ℚ) :
    (getLabels (labelledOf fill cc probability_image threshold) = [] →
      process_probability_image fill cc probability_image threshold =
        fill (binaryOf probability_image threshold)) ∧
    (getLabels (labelledOf fill cc probability_image threshold) ≠ [] →
      ∃ L ∈ getLabels (labelledOf fill cc probability_image threshold),
        (∀ L' ∈ getLabels (labelledOf fill cc probability_image threshold),
          voxelCount (labelledOf fill cc probability_image threshold) L' ≤
            voxelCount (labelledOf fill cc probability_image threshold) L) ∧
        process_probability_image fill cc probability_image threshold =
          (labelledOf fill cc probability_image threshold).map
            (fun v => castUInt8 (if v = L then 1 else 0)) ∧
        ∀ q ∈ process_probability_image fill cc probability_image threshold,
          q = 0 ∨ q = 1) := by
  constructor
  · intro h
    simp only [labelledOf] at h
    simp only [process_probability_image, h, List.map_nil, if_pos]
  · intro h
    simp only [labelledOf] at h ⊢
    have hcne : (getLabels (cc (fill (binaryOf probability_image threshold)))).map
        (voxelCount (cc (fill (binaryOf probability_image threshold)))) ≠ [] := by
      simpa [List.map_eq_nil_iff] using h
    obtain ⟨hidx, hget, hdom⟩ := argmax_spec hcne
    have hidx' : argmaxIdx ((getLabels (cc (fill (binaryOf probability_image threshold)))).map
        (voxelCount (cc (fill (binaryOf probability_image threshold))))) <
        (getLabels (cc (fill (binaryOf probability_image threshold)))).length := by
      simpa using hidx
    have hrun : process_probability_image fill cc probability_image threshold =
        ((cc (fill (binaryOf probability_image threshold))).map
          (fun v => if v = (getLabels (cc (fill (binaryOf probability_image threshold)))).getD
            (argmaxIdx ((getLabels (cc (fill (binaryOf probability_image threshold)))).map
              (voxelCount (cc (fill (binaryOf probability_image threshold)))))) 0
            then 1 else 0)).map castUInt8 := by
      simp only [process_probability_image, if_neg hcne]
    refine ⟨(getLabels (cc (fill (binaryOf probability_image threshold)))).getD
      (argmaxIdx ((getLabels (cc (fill (binaryOf probability_image threshold)))).map
        (voxelCount (cc (fill (binaryOf probability_image threshold)))))) 0, ?_, ?_, ?_, ?_⟩
    · rw [List.getD_eq_getElem _ _ hidx']
      exact List.getElem_mem _
    · intro L' hL'
      have hm : voxelCount (cc (fill (binaryOf probability_image threshold))) L' ∈
          (getLabels (cc (fill (binaryOf probability_image threshold)))).map
            (voxelCount (cc (fill (binaryOf probability_image threshold)))) :=
        List.mem_map_of_mem _ hL'
      have hmax := hdom _ hm
      have hcg := getD_map_general
        (voxelCount (cc (fill (binaryOf probability_image threshold)))) 0 0
        (getLabels (cc (fill (binaryOf probability_image threshold))))
        (argmaxIdx ((getLabels (cc (fill (binaryOf probability_image threshold)))).map
          (voxelCount (cc (fill (binaryOf probability_image threshold)))))) hidx'
      rw [← hcg, hget]
      exact hmax
    · rw [hrun, List.map_map]
      rfl
    · intro q hq
      rw [hrun] at hq
      obtain ⟨w, hw, rfl⟩ := List.mem_map.mp hq
      obtain ⟨v, hv0, rfl⟩ := List.mem_map.mp hw
      by_cases hv : v = (getLabels (cc (fill (binaryOf probability_image threshold)))).getD
          (argmaxIdx ((getLabels (cc (fill (binaryOf probability_image threshold)))).map
            (voxelCount (cc (fill (binaryOf probability_image threshold)))))) 0
      · rw [if_pos hv]
        right
        norm_num [castUInt8]
      · rw [if_neg hv]
        left
        norm_num [castUInt8]

/-- C9 witness: with identity hole-filling and a connected-component
labelling producing components 1 (one voxel) and 2 (two voxels), the
post-processor keeps a maximal-count label and returns a 0/1 mask. -/
theorem C9_process_probability_image_largest_component_witness :
    ∃ L ∈ getLabels (labelledOf (fun im => im) (fun _ => [1, 2, 2]) [1] (1 / 2)),
      (∀ L' ∈ getLabels (labelledOf (fun im => im) (fun _ => [1, 2, 2]) [1] (1 / 2)),
        voxelCount (labelledOf (fun im => im) (fun _ => [1, 2, 2]) [1] (1 / 2)) L' ≤
          voxelCount (labelledOf (fun im => im) (fun _ => [1, 2, 2]) [1] (1 / 2)) L) ∧
      process_probability_image (fun im => im) (fun _ => [1, 2, 2]) [1] (1 / 2) =
        (labelledOf (fun im => im) (fun _ => [1, 2, 2]) [1] (1 / 2)).map
          (fun v => castUInt8 (if v = L then 1 else 0)) ∧
      ∀ q ∈ process_probability_image (fun im => im) (fun _ => [1, 2, 2]) [1] (1 / 2),
        q = 0 ∨ q = 1 :=
  (C9_process_probability_image_largest_component (fun im => im) (fun _ => [1, 2, 2])
    [1] (1 / 2)).2
    (by simp [labelledOf, getLabels, sortQ, insertSortedQ, uniqAdjQ])

end Platipy
